import Mathlib

/-!
Verification of the LogiTrack allocation engine (`src/backend/optimizer.py`).

The engine is embedded shallowly:

* pandas `DataFrame`s become lists of records (row order preserved);
* Python floats become exact rationals, with `float('inf')` modelled by the
  top element of `WithTop ℚ`;
* the floating-point math functions `sin`, `cos`, `sqrt`, `atan2` and the
  constant `pi` are abstracted into a `TrigModel` parameter, so every
  statement about the allocation logic holds for every numeric realisation
  of those functions;
* a Python `raise` escaping a function becomes `Option.none`;
* the wall-clock `solving_time` field is not modelled (real time is outside
  the embedding); the remaining output fields are modelled exactly.
-/

namespace LogiTrack

/-- Extended rationals: `⊤` models Python's `float('inf')`. -/
abbrev QInf := WithTop ℚ

/-- A row of the `warehouses` DataFrame (the columns read by the optimizer).
`latitude`/`longitude` are `none` when the stored value is missing or
non-numeric, i.e. when `float(...)` on it would raise. -/
structure Warehouse where
  warehouse_id : String
  latitude : Option ℚ
  longitude : Option ℚ
  storage_cost : ℚ
deriving DecidableEq

/-- A row of the `orders` DataFrame (the columns read by the optimizer). -/
structure Order where
  order_id : String
  product_id : String
  quantity : Int
  status : String
  delivery_latitude : Option ℚ
  delivery_longitude : Option ℚ
deriving DecidableEq

/-- A row of the detailed `inventory` DataFrame. -/
structure StockRecord where
  warehouse_id : String
  product_id : String
  current_stock : Int
deriving DecidableEq

/-- Abstract model of the real-valued math functions used by
`calculate_distance`.  The allocation logic never inspects their values, so
all theorems below hold for every `TrigModel`. -/
structure TrigModel where
  sin : ℚ → ℚ
  cos : ℚ → ℚ
  sqrt : ℚ → ℚ
  atan2 : ℚ → ℚ → ℚ
  pi : ℚ

/-- `math.radians`: degrees to radians. -/
def radiansQ (t : TrigModel) (x : ℚ) : ℚ :=
  x * t.pi / 180

/-- The engine object; `optimize` reads none of these fields. -/
structure InventoryOptimizer where
  solver_time : Int
  current_datetime : String
  current_user : String

/-- `InventoryOptimizer.calculate_distance`: Haversine distance between the
warehouse and the order's delivery location.  Any missing or non-numeric
coordinate makes `float(...)` raise inside the `try`, and the handler
returns `float('inf')`, i.e. `⊤`. -/
def calculate_distance (t : TrigModel) (warehouse_row : Warehouse) (order_row : Order) : QInf :=
  match warehouse_row.latitude, warehouse_row.longitude,
        order_row.delivery_latitude, order_row.delivery_longitude with
  | some wlat, some wlon, some olat, some olon =>
    let lat1 := radiansQ t wlat
    let lon1 := radiansQ t wlon
    let lat2 := radiansQ t olat
    let lon2 := radiansQ t olon
    let dlat := lat2 - lat1
    let dlon := lon2 - lon1
    let a := t.sin (dlat / 2) ^ 2 + t.cos lat1 * t.cos lat2 * t.sin (dlon / 2) ^ 2
    let c := 2 * t.atan2 (t.sqrt a) (t.sqrt (1 - a))
    ((c * 6371 : ℚ) : QInf)
  | _, _, _, _ => ⊤

/-- `warehouses[warehouses['warehouse_id'] == wid].iloc[0]`, as a partial
lookup: `none` models the `IndexError` raised on an empty selection. -/
def lookupWarehouse (warehouses : List Warehouse) (wid : String) : Option Warehouse :=
  warehouses.find? (fun w => w.warehouse_id == wid)

/-- The `best_allocation` accumulator dictionary. -/
structure BestAlloc where
  warehouse_id : Option String
  cost : QInf
  distance : QInf
deriving DecidableEq

/-- An entry of `results['allocation_plan'][warehouse_id]`. -/
structure AllocationEntry where
  order_id : String
  quantity : Int
  cost : QInf
  distance : QInf
deriving DecidableEq

/-- An entry of `results['unfulfilled_orders']`. -/
structure UnfulfilledEntry where
  order_id : String
  quantity : Int
  reason : String
deriving DecidableEq

/-- Ghost record of one committed allocation (warehouse, product, quantity);
used only to state the stock-depletion accounting, never read by the
algorithm. -/
structure AllocCommit where
  warehouse_id : String
  product_id : String
  quantity : Int
deriving DecidableEq

/-- The mutable state of one `optimize` run: the private working copy
`inventory_levels` plus the incrementally built pieces of `results`.
`alloc_log` is ghost history (see `AllocCommit`). -/
structure OptState where
  inventory_levels : List StockRecord
  allocation_plan : List (String × List AllocationEntry)
  unfulfilled_orders : List UnfulfilledEntry
  total_cost : QInf
  alloc_log : List AllocCommit
deriving DecidableEq

/-- The inner `for _, stock_info in possible_inventory.iterrows()` loop:
fold the `best_allocation` accumulator over the product-matching stock rows.
`none` models the `IndexError` escaping when a sufficiently stocked row
names a warehouse absent from `warehouses`. -/
def scanCandidates (t : TrigModel) (warehouses : List Warehouse) (o : Order) :
    List StockRecord → BestAlloc → Option BestAlloc
  | [], best => some best
  | s :: rest, best =>
    if o.quantity ≤ s.current_stock then
      match lookupWarehouse warehouses s.warehouse_id with
      | none => none
      | some w =>
        let transport_cost := calculate_distance t w o * ((10 : ℚ) : QInf)
        let storage_cost_penalty := ((w.storage_cost * (1 / 10) : ℚ) : QInf)
        let cost := transport_cost + storage_cost_penalty
        if cost < best.cost then
          scanCandidates t warehouses o rest
            ⟨some s.warehouse_id, cost, calculate_distance t w o⟩
        else
          scanCandidates t warehouses o rest best
    else
      scanCandidates t warehouses o rest best

/-- Appending an allocation entry under a warehouse key of the
`allocation_plan` dict (insertion-ordered, as Python dicts are). -/
def addToPlan : List (String × List AllocationEntry) → String → AllocationEntry →
    List (String × List AllocationEntry)
  | [], wid, e => [(wid, [e])]
  | (k, es) :: rest, wid, e =>
    if k = wid then (k, es ++ [e]) :: rest else (k, es) :: addToPlan rest wid e

/-- One iteration of the `for _, order in orders.iterrows()` loop. -/
def processOrder (t : TrigModel) (warehouses : List Warehouse) (st : OptState)
    (o : Order) : Option OptState :=
  let possible_inventory :=
    st.inventory_levels.filter (fun s => s.product_id == o.product_id)
  match scanCandidates t warehouses o possible_inventory ⟨none, ⊤, ⊤⟩ with
  | none => none
  | some best =>
    match best.warehouse_id with
    | some wid =>
      some { st with
        inventory_levels := st.inventory_levels.map (fun s =>
          if s.warehouse_id == wid && s.product_id == o.product_id then
            { s with current_stock := s.current_stock - o.quantity }
          else s)
        allocation_plan :=
          addToPlan st.allocation_plan wid ⟨o.order_id, o.quantity, best.cost, best.distance⟩
        total_cost := st.total_cost + best.cost
        alloc_log := st.alloc_log ++ [⟨wid, o.product_id, o.quantity⟩] }
    | none =>
      some { st with
        unfulfilled_orders := st.unfulfilled_orders ++
          [⟨o.order_id, o.quantity, "Insufficient stock for product " ++ o.product_id⟩] }

/-- The two-key comparison used by
`orders.sort_values(by=['status', 'quantity'], ascending=[True, False])`:
status ascending, quantity descending.  A multi-column pandas sort is a
stable lexicographic sort, here realised by `List.mergeSort`. -/
def orderLE (a b : Order) : Bool :=
  decide (a.status < b.status) || (a.status == b.status && decide (b.quantity ≤ a.quantity))

/-- The sorted order sequence the allocation loop iterates over. -/
def sortOrders (orders : List Order) : List Order :=
  orders.mergeSort orderLE

/-- The run state right after `results` is initialised and
`inventory_levels = inventory.copy()` is taken. -/
def initState (inventory : List StockRecord) : OptState :=
  ⟨inventory, [], [], ((0 : ℚ) : QInf), []⟩

/-- The whole order loop; `none` propagates a raised exception. -/
def foldOrders (t : TrigModel) (warehouses : List Warehouse) :
    OptState → List Order → Option OptState
  | st, [] => some st
  | st, o :: rest =>
    match processOrder t warehouses st o with
    | none => none
    | some st' => foldOrders t warehouses st' rest

/-- The `results` dictionary returned by a successful `optimize` call.
`warehouse_utilization` is created empty and never written.  The wall-clock
`solving_time` float is not modelled. -/
structure Results where
  allocation_plan : List (String × List AllocationEntry)
  warehouse_utilization : List (String × ℚ)
  unfulfilled_orders : List UnfulfilledEntry
  total_cost : QInf
  status : String
deriving DecidableEq

/-- `InventoryOptimizer.optimize`.  `none` models the `ValueError` re-raised
by the outer `except` handler; the fields of `self` are never read. -/
def optimize (self : InventoryOptimizer) (t : TrigModel) (warehouses : List Warehouse)
    (orders : List Order) (inventory : List StockRecord) : Option Results :=
  match foldOrders t warehouses (initState inventory) (sortOrders orders) with
  | none => none
  | some st => some ⟨st.allocation_plan, [], st.unfulfilled_orders, st.total_cost, "Completed"⟩

/-! ### A store-passing version, for the aliasing claim

`optimize` receives the caller's `inventory` DataFrame by reference and
takes `inventory_levels = inventory.copy()`.  To make that observable, the
heap below holds the DataFrames; the run allocates a fresh cell for the
copy and every `.loc` write of the loop hits that cell. -/

/-- A heap of stock DataFrames, addressed by position. -/
abbrev StockHeap := List (List StockRecord)

/-- The order loop, with the working copy living in heap cell `workRef`:
each iteration reads the cell and writes the depleted rows back. -/
def foldOrdersHeap (t : TrigModel) (warehouses : List Warehouse) (workRef : Nat) :
    StockHeap → OptState → List Order → StockHeap × Option OptState
  | h, st, [] => (h, some st)
  | h, st, o :: rest =>
    match processOrder t warehouses
        { st with inventory_levels := (h.get? workRef).getD [] } o with
    | none => (h, none)
    | some st' => foldOrdersHeap t warehouses workRef (h.set workRef st'.inventory_levels) st' rest

/-- `optimize`, with the caller's inventory held in heap cell `invRef`:
`inventory.copy()` allocates the fresh cell `h.length`, and the loop only
ever writes that cell. -/
def optimizeHeap (self : InventoryOptimizer) (t : TrigModel) (warehouses : List Warehouse)
    (orders : List Order) (h : StockHeap) (invRef : Nat) : StockHeap × Option Results :=
  let inventory := (h.get? invRef).getD []
  let workRef := h.length
  match foldOrdersHeap t warehouses workRef (h ++ [inventory]) (initState inventory)
      (sortOrders orders) with
  | (h2, none) => (h2, none)
  | (h2, some st) =>
    (h2, some ⟨st.allocation_plan, [], st.unfulfilled_orders, st.total_cost, "Completed"⟩)

/-! ### The summary function

`get_optimization_summary` receives an arbitrary Python dict, so its input
is modelled as an association list of dynamically typed values. -/

/-- A dynamically typed Python value, as far as the summary code can
distinguish them: `pyNone` is `None`, `num` a finite number, `str` a
string. -/
inductive PyVal where
  | pyNone : PyVal
  | num : ℚ → PyVal
  | str : String → PyVal
deriving DecidableEq

/-- Whether a value is numeric, i.e. `round(v, 2)` succeeds on it. -/
def PyVal.isNum : PyVal → Bool
  | num _ => true
  | _ => false

/-- A Python dict with string keys. -/
abbrev PyDict := List (String × PyVal)

/-- `d.get(k, default)`. -/
def dget (d : PyDict) (k : String) (default : PyVal) : PyVal :=
  match d.find? (fun kv => kv.1 == k) with
  | some kv => kv.2
  | none => default

/-- Python's `round` to an integer: round half to even. -/
def roundHalfEven (x : ℚ) : Int :=
  let f := ⌊x⌋
  let r := x - (f : ℚ)
  if r < 1 / 2 then f
  else if 1 / 2 < r then f + 1
  else if f % 2 = 0 then f else f + 1

/-- `round(x, 2)`. -/
def round2 (x : ℚ) : ℚ :=
  (roundHalfEven (x * 100) : ℚ) / 100

/-- `round(v, 2)` on a dynamic value: fails (raises) unless `v` is numeric. -/
def pyRound2 : PyVal → Option PyVal
  | PyVal.num q => some (PyVal.num (round2 q))
  | _ => none

/-- `InventoryOptimizer.get_optimization_summary`: builds the summary dict;
if either `round` call raises, the handler returns `{}`. -/
def get_optimization_summary (results : PyDict) : PyDict :=
  match pyRound2 (dget results ("total_cost") (PyVal.num 0)),
        pyRound2 (dget results ("solving_time") (PyVal.num 0)) with
  | some tc, some st =>
    [("total_cost", tc), ("solving_time", st),
     ("status", dget results ("status") (PyVal.str "Unknown")),
     ("timestamp", dget results ("optimization_timestamp") PyVal.pyNone)]
  | _, _ => []

/-! ### Specification-side definitions

These are written from the spec's words, to be compared with the embedded
code above. -/

/-- Spec: the candidate set for an order is the stock records matching its
product whose quantity covers the requested quantity. -/
def candidates (inv : List StockRecord) (o : Order) : List StockRecord :=
  (inv.filter (fun s => s.product_id == o.product_id)).filter
    (fun s => decide (o.quantity ≤ s.current_stock))

/-- Spec: the Haversine great-circle distance, Earth radius 6371 km, degree
inputs converted to radians:
`a = sin²(Δlat/2) + cos lat1 · cos lat2 · sin²(Δlon/2)`,
`distance = 2 · R · atan2(√a, √(1−a))`. -/
def haversine_spec (t : TrigModel) (lat1d lon1d lat2d lon2d : ℚ) : ℚ :=
  let lat1 := lat1d * t.pi / 180
  let lon1 := lon1d * t.pi / 180
  let lat2 := lat2d * t.pi / 180
  let lon2 := lon2d * t.pi / 180
  let a := t.sin ((lat2 - lat1) / 2) ^ 2 +
    t.cos lat1 * t.cos lat2 * t.sin ((lon2 - lon1) / 2) ^ 2
  2 * 6371 * t.atan2 (t.sqrt a) (t.sqrt (1 - a))

/-- Spec: `cost = distance(warehouse, order) * 10 + storage_cost * 0.1`,
evaluated for the warehouse named by a candidate stock record; infinite
when the warehouse is unknown or a coordinate is malformed. -/
def cost_spec (t : TrigModel) (warehouses : List Warehouse) (o : Order)
    (s : StockRecord) : QInf :=
  match lookupWarehouse warehouses s.warehouse_id with
  | none => ⊤
  | some w =>
    match w.latitude, w.longitude, o.delivery_latitude, o.delivery_longitude with
    | some wlat, some wlon, some olat, some olon =>
      ((haversine_spec t wlat wlon olat olon * 10 + w.storage_cost * (1 / 10) : ℚ) : QInf)
    | _, _, _, _ => ⊤

/-- The distance stored with a committed allocation, per the spec formula. -/
def dist_spec (t : TrigModel) (warehouses : List Warehouse) (o : Order)
    (s : StockRecord) : QInf :=
  match lookupWarehouse warehouses s.warehouse_id with
  | none => ⊤
  | some w =>
    match w.latitude, w.longitude, o.delivery_latitude, o.delivery_longitude with
    | some wlat, some wlon, some olat, some olon =>
      ((haversine_spec t wlat wlon olat olon : ℚ) : QInf)
    | _, _, _, _ => ⊤

/-- Spec: select the minimum-cost element, ties broken in favour of the
first-encountered one. -/
def selectMinFirst {α : Type} (f : α → QInf) : List α → Option α
  | [] => none
  | x :: xs =>
    match selectMinFirst f xs with
    | none => some x
    | some y => if f y < f x then some y else some x

/-- A stock record can be scored without raising: its warehouse is present
and has numeric coordinates. -/
def warehouseOk (warehouses : List Warehouse) (s : StockRecord) : Bool :=
  match lookupWarehouse warehouses s.warehouse_id with
  | some w => w.latitude.isSome && w.longitude.isSome
  | none => false

/-- Spec two-key order priority: status ascending, then quantity
descending. -/
def keyLE (a b : Order) : Prop :=
  a.status < b.status ∨ (a.status = b.status ∧ b.quantity ≤ a.quantity)

/-- Total quantity committed against a (warehouse, product) pair in the
ghost allocation log. -/
def allocatedQty (log : List AllocCommit) (wid pid : String) : Int :=
  ((log.filter (fun c => c.warehouse_id == wid && c.product_id == pid)).map
    (fun c => c.quantity)).sum

/-- Spec accounting invariant: the working copy pairs up row by row with
the pre-run inventory, every row keeps its key, and its quantity is the
pre-run quantity minus everything allocated against its
(warehouse, product) pair. -/
def StockInvariant (init cur : List StockRecord) (log : List AllocCommit) : Prop :=
  List.Forall₂ (fun a b =>
    b.warehouse_id = a.warehouse_id ∧ b.product_id = a.product_id ∧
    b.current_stock = a.current_stock - allocatedQty log a.warehouse_id a.product_id)
    init cur

/-- The order-id multiset recorded in an allocation plan. -/
def planOrderIds (plan : List (String × List AllocationEntry)) : List String :=
  (plan.map (fun kv => kv.2)).flatten.map (fun e => e.order_id)

/-- The data-model key constraint: at most one stock record per
(warehouse, product) pair. -/
def UniquePairs (l : List StockRecord) : Prop :=
  l.Pairwise (fun a b => ¬(a.warehouse_id = b.warehouse_id ∧ a.product_id = b.product_id))

/-- All order ids recorded in a run state, fulfilled or not. -/
def stateIds (st : OptState) : List String :=
  planOrderIds st.allocation_plan ++ st.unfulfilled_orders.map (fun e => e.order_id)

/-! ### Concrete fixtures, used to instantiate the theorems below -/

/-- A trivial numeric model: every math function returns 0. -/
def trig0 : TrigModel :=
  ⟨fun _ => 0, fun _ => 0, fun _ => 0, fun _ _ => 0, 0⟩

/-- The engine object with its constructor defaults. -/
def opt0 : InventoryOptimizer :=
  ⟨20, "2025-03-24 21:07:26", "tanishpoddar"⟩

/-- A warehouse at the origin with storage cost 100. -/
def wh0 : Warehouse := ⟨"W1", some 0, some 0, 100⟩

/-- An order for 500 units of P1, delivered at the origin. -/
def ord0 : Order := ⟨"O1", "P1", 500, "pending", some 0, some 0⟩

/-- Two orders tying on both sort keys. -/
def ordA : Order := ⟨"O1", "P1", 5, "pending", some 0, some 0⟩

/-- See `ordA`. -/
def ordB : Order := ⟨"O2", "P2", 5, "pending", some 0, some 0⟩

/-- 500 units of P1 at W1. -/
def stk0 : StockRecord := ⟨"W1", "P1", 500⟩

/-- 400 units of P1 at W1 (not enough for `ord0`). -/
def stkLow : StockRecord := ⟨"W1", "P1", 400⟩

/-! ### Helper lemmas -/

theorem foldOrders_append (t : TrigModel) (wh : List Warehouse) (st : OptState)
    (l1 l2 : List Order) :
    foldOrders t wh st (l1 ++ l2) =
      match foldOrders t wh st l1 with
      | none => none
      | some st2 => foldOrders t wh st2 l2 := by
  induction l1 generalizing st with
  | nil => simp [foldOrders]
  | cons o rest ih =>
    simp only [List.cons_append, foldOrders]
    cases processOrder t wh st o with
    | none => rfl
    | some st2 => exact ih st2

theorem scanCandidates_none_of_missing (t : TrigModel) (wh : List Warehouse) (o : Order)
    (s : StockRecord) (hq : o.quantity ≤ s.current_stock)
    (hw : lookupWarehouse wh s.warehouse_id = none) :
    ∀ (l : List StockRecord) (best : BestAlloc), s ∈ l →
      scanCandidates t wh o l best = none := by
  intro l
  induction l with
  | nil => intro best hs; cases hs
  | cons x rest ih =>
    intro best hs
    rcases List.mem_cons.mp hs with h | h
    · subst h
      simp only [scanCandidates, if_pos hq, hw]
    · by_cases hx : o.quantity ≤ x.current_stock
      · cases hlw : lookupWarehouse wh x.warehouse_id with
        | none => simp only [scanCandidates, if_pos hx, hlw]
        | some w =>
          simp only [scanCandidates, if_pos hx, hlw]
          split
          · exact ih _ h
          · exact ih _ h
      · simp only [scanCandidates, if_neg hx]
        exact ih _ h

theorem scanCandidates_mem (t : TrigModel) (wh : List Warehouse) (o : Order) :
    ∀ (l : List StockRecord) (best best' : BestAlloc),
      scanCandidates t wh o l best = some best' →
      best'.warehouse_id = best.warehouse_id ∨
        ∃ s ∈ l, o.quantity ≤ s.current_stock ∧ best'.warehouse_id = some s.warehouse_id := by
  intro l
  induction l with
  | nil =>
    intro best best' h
    simp only [scanCandidates, Option.some.injEq] at h
    left; rw [← h]
  | cons x rest ih =>
    intro best best' h
    by_cases hx : o.quantity ≤ x.current_stock
    · cases hlw : lookupWarehouse wh x.warehouse_id with
      | none => simp only [scanCandidates, if_pos hx, hlw] at h; cases h
      | some w =>
        simp only [scanCandidates, if_pos hx, hlw] at h
        split at h
        · rcases ih _ _ h with h2 | ⟨s, hsmem, hsq, hsid⟩
          · right; exact ⟨x, List.mem_cons_self x rest, hx, h2⟩
          · right; exact ⟨s, List.mem_cons_of_mem x hsmem, hsq, hsid⟩
        · rcases ih _ _ h with h2 | ⟨s, hsmem, hsq, hsid⟩
          · left; exact h2
          · right; exact ⟨s, List.mem_cons_of_mem x hsmem, hsq, hsid⟩
    · simp only [scanCandidates, if_neg hx] at h
      rcases ih _ _ h with h2 | ⟨s, hsmem, hsq, hsid⟩
      · left; exact h2
      · right; exact ⟨s, List.mem_cons_of_mem x hsmem, hsq, hsid⟩

theorem scanCandidates_finite (t : TrigModel) (wh : List Warehouse) (o : Order) :
    ∀ (l : List StockRecord) (best best' : BestAlloc),
      scanCandidates t wh o l best = some best' →
      (best.warehouse_id.isSome → best.cost < ⊤) →
      best'.warehouse_id.isSome → best'.cost < ⊤ := by
  intro l
  induction l with
  | nil =>
    intro best best' h hb
    simp only [scanCandidates, Option.some.injEq] at h
    rw [← h]; exact hb
  | cons x rest ih =>
    intro best best' h hb
    by_cases hx : o.quantity ≤ x.current_stock
    · cases hlw : lookupWarehouse wh x.warehouse_id with
      | none => simp only [scanCandidates, if_pos hx, hlw] at h; cases h
      | some w =>
        simp only [scanCandidates, if_pos hx, hlw] at h
        split at h
        · rename_i hc
          exact ih _ _ h (fun _ => lt_of_lt_of_le hc le_top)
        · exact ih _ _ h hb
    · simp only [scanCandidates, if_neg hx] at h
      exact ih _ _ h hb

theorem selectMinFirst_cons_isSome {α : Type} (f : α → QInf) (x : α) (xs : List α) :
    (selectMinFirst f (x :: xs)).isSome := by
  cases hxs : selectMinFirst f xs with
  | none => simp [selectMinFirst, hxs]
  | some y =>
    simp only [selectMinFirst, hxs]
    split <;> rfl

theorem selectMinFirst_spec {α : Type} (f : α → QInf) :
    ∀ (l : List α) (s0 : α), selectMinFirst f l = some s0 →
      ∃ pre post, l = pre ++ s0 :: post ∧
        (∀ s ∈ pre, f s0 < f s) ∧ ∀ s ∈ post, f s0 ≤ f s := by
  intro l
  induction l with
  | nil => intro s0 h; cases h
  | cons x xs ih =>
    intro s0 h
    cases hxs : selectMinFirst f xs with
    | none =>
      simp only [selectMinFirst, hxs] at h
      injection h with h; subst h
      refine ⟨[], xs, rfl, by simp, ?_⟩
      cases xs with
      | nil => simp
      | cons y ys =>
        have := selectMinFirst_cons_isSome f y ys
        rw [hxs] at this
        cases this
    | some y =>
      simp only [selectMinFirst, hxs] at h
      by_cases hc : f y < f x
      · rw [if_pos hc] at h
        injection h with h; subst h
        obtain ⟨pre, post, hsplit, hpre, hpost⟩ := ih _ hxs
        refine ⟨x :: pre, post, by rw [hsplit]; rfl, ?_, hpost⟩
        intro s hs
        rcases List.mem_cons.mp hs with rfl | hs
        · exact hc
        · exact hpre s hs
      · rw [if_neg hc] at h
        injection h with h; subst h
        push_neg at hc
        obtain ⟨pre, post, hsplit, hpre, hpost⟩ := ih _ hxs
        refine ⟨[], xs, rfl, by simp, ?_⟩
        intro s hs
        rw [hsplit] at hs
        rcases List.mem_append.mp hs with hs | hs
        · exact le_of_lt (lt_of_le_of_lt hc (hpre s hs))
        · rcases List.mem_cons.mp hs with rfl | hs
          · exact hc
          · exact le_trans hc (hpost s hs)

theorem selectMinFirst_mem {α : Type} (f : α → QInf) (l : List α) (s0 : α)
    (h : selectMinFirst f l = some s0) : s0 ∈ l := by
  obtain ⟨pre, post, hsplit, -, -⟩ := selectMinFirst_spec f l s0 h
  rw [hsplit]
  exact List.mem_append.mpr (Or.inr (List.mem_cons_self s0 post))

theorem calculate_distance_eq_spec (t : TrigModel) (w : Warehouse) (o : Order)
    (wlat wlon olat olon : ℚ)
    (h1 : w.latitude = some wlat) (h2 : w.longitude = some wlon)
    (h3 : o.delivery_latitude = some olat) (h4 : o.delivery_longitude = some olon) :
    calculate_distance t w o = ((haversine_spec t wlat wlon olat olon : ℚ) : QInf) := by
  simp only [calculate_distance, h1, h2, h3, h4, haversine_spec, radiansQ]
  exact WithTop.coe_eq_coe.mpr (by ring)

theorem warehouseOk_elim (wh : List Warehouse) (s : StockRecord)
    (h : warehouseOk wh s = true) :
    ∃ w wlat wlon, lookupWarehouse wh s.warehouse_id = some w ∧
      w.latitude = some wlat ∧ w.longitude = some wlon := by
  cases hlw : lookupWarehouse wh s.warehouse_id with
  | none => exact Bool.noConfusion (by simpa only [warehouseOk, hlw] using h)
  | some w =>
    simp only [warehouseOk, hlw, Bool.and_eq_true, Option.isSome_iff_exists] at h
    obtain ⟨⟨wlat, hlat⟩, ⟨wlon, hlon⟩⟩ := h
    exact ⟨w, wlat, wlon, rfl, hlat, hlon⟩

theorem scan_cost_eq_spec (t : TrigModel) (wh : List Warehouse) (o : Order)
    (s : StockRecord) (w : Warehouse)
    (hlw : lookupWarehouse wh s.warehouse_id = some w)
    (wlat wlon olat olon : ℚ)
    (h1 : w.latitude = some wlat) (h2 : w.longitude = some wlon)
    (h3 : o.delivery_latitude = some olat) (h4 : o.delivery_longitude = some olon) :
    calculate_distance t w o * ((10 : ℚ) : QInf) + ((w.storage_cost * (1 / 10) : ℚ) : QInf) =
      cost_spec t wh o s ∧ calculate_distance t w o = dist_spec t wh o s := by
  constructor
  · simp only [cost_spec, hlw, h1, h2, h3, h4,
      calculate_distance_eq_spec t w o wlat wlon olat olon h1 h2 h3 h4]
    norm_cast
  · simp only [dist_spec, hlw, h1, h2, h3, h4]
    exact calculate_distance_eq_spec t w o wlat wlon olat olon h1 h2 h3 h4

theorem scanCandidates_eq (t : TrigModel) (wh : List Warehouse) (o : Order)
    (ho1 : o.delivery_latitude.isSome) (ho2 : o.delivery_longitude.isSome) :
    ∀ (l : List StockRecord) (best : BestAlloc),
      (∀ s ∈ l, o.quantity ≤ s.current_stock → warehouseOk wh s = true) →
      scanCandidates t wh o l best = some
        (match selectMinFirst (cost_spec t wh o)
            (l.filter (fun s => decide (o.quantity ≤ s.current_stock))) with
         | none => best
         | some s0 =>
           if cost_spec t wh o s0 < best.cost then
             ⟨some s0.warehouse_id, cost_spec t wh o s0, dist_spec t wh o s0⟩
           else best) := by
  obtain ⟨olat, h3⟩ := Option.isSome_iff_exists.mp ho1
  obtain ⟨olon, h4⟩ := Option.isSome_iff_exists.mp ho2
  intro l
  induction l with
  | nil =>
    intro best hok
    simp [scanCandidates, selectMinFirst]
  | cons x rest ih =>
    intro best hok
    have hokrest : ∀ s ∈ rest, o.quantity ≤ s.current_stock → warehouseOk wh s = true :=
      fun s hs hq => hok s (List.mem_cons_of_mem x hs) hq
    by_cases hx : o.quantity ≤ x.current_stock
    · obtain ⟨w, wlat, wlon, hlw, hwlat, hwlon⟩ :=
        warehouseOk_elim wh x (hok x (List.mem_cons_self x rest) hx)
      obtain ⟨hcost, hdist⟩ :=
        scan_cost_eq_spec t wh o x w hlw wlat wlon olat olon hwlat hwlon h3 h4
      have hfilter : (x :: rest).filter (fun s => decide (o.quantity ≤ s.current_stock)) =
          x :: rest.filter (fun s => decide (o.quantity ≤ s.current_stock)) := by
        simp [List.filter_cons, hx]
      rw [hfilter]
      simp only [scanCandidates, if_pos hx, hlw]
      rw [hcost, hdist]
      cases hsel : selectMinFirst (cost_spec t wh o)
          (rest.filter (fun s => decide (o.quantity ≤ s.current_stock))) with
      | none =>
        simp only [selectMinFirst, hsel]
        by_cases hc : cost_spec t wh o x < best.cost
        · rw [if_pos hc, if_pos hc, ih _ hokrest, hsel]
        · rw [if_neg hc, if_neg hc, ih _ hokrest, hsel]
      | some y =>
        simp only [selectMinFirst, hsel]
        by_cases hyx : cost_spec t wh o y < cost_spec t wh o x
        · rw [if_pos hyx]
          by_cases hc : cost_spec t wh o x < best.cost
          · rw [if_pos hc, ih _ hokrest, hsel]
            simp only []
            rw [if_pos hyx, if_pos (lt_trans hyx hc)]
          · rw [if_neg hc, ih _ hokrest, hsel]
        · rw [if_neg hyx]
          by_cases hc : cost_spec t wh o x < best.cost
          · rw [if_pos hc, ih _ hokrest, hsel]
            simp only []
            rw [if_neg hyx, if_pos hc]
          · rw [if_neg hc, ih _ hokrest, hsel]
            simp only []
            rw [if_neg hc, if_neg (fun hyb =>
              hc (lt_of_le_of_lt (le_of_not_lt hyx) hyb))]

    · have hfilter : (x :: rest).filter (fun s => decide (o.quantity ≤ s.current_stock)) =
          rest.filter (fun s => decide (o.quantity ≤ s.current_stock)) := by
        simp [List.filter_cons, hx]
      rw [hfilter]
      simp only [scanCandidates, if_neg hx]
      exact ih best hokrest

theorem allocatedQty_nil (wid pid : String) : allocatedQty [] wid pid = 0 := rfl

theorem allocatedQty_append (log : List AllocCommit) (c : AllocCommit) (wid pid : String) :
    allocatedQty (log ++ [c]) wid pid =
      allocatedQty log wid pid +
        (if (c.warehouse_id == wid && c.product_id == pid) = true then c.quantity else 0) := by
  simp only [allocatedQty, List.filter_append, List.map_append, List.sum_append]
  congr 1
  by_cases hp : (c.warehouse_id == wid && c.product_id == pid) = true
  · simp [List.filter_cons, hp]
  · simp [List.filter_cons, hp]

theorem StockInvariant_init (inv : List StockRecord) : StockInvariant inv inv [] := by
  unfold StockInvariant
  rw [List.forall₂_same]
  intro a _
  exact ⟨rfl, rfl, by simp [allocatedQty_nil]⟩

theorem mem_right_of_forall₂ {α β : Type} {r : α → β → Prop} :
    ∀ {l1 : List α} {l2 : List β}, List.Forall₂ r l1 l2 → ∀ b ∈ l2, ∃ a ∈ l1, r a b := by
  intro l1 l2 h
  induction h with
  | nil => intro b hb; cases hb
  | @cons x y t1 t2 hr hrest ih =>
    intro b hb
    rcases List.mem_cons.mp hb with rfl | hb
    · exact ⟨x, List.mem_cons_self x t1, hr⟩
    · obtain ⟨a, ha, hra⟩ := ih b hb
      exact ⟨a, List.mem_cons_of_mem x ha, hra⟩

theorem StockInvariant_unique (log : List AllocCommit) (init cur : List StockRecord)
    (h : StockInvariant init cur log) (hu : UniquePairs init) : UniquePairs cur := by
  unfold StockInvariant at h
  induction h with
  | nil => exact List.Pairwise.nil
  | @cons a b l1 l2 hr hrest ih =>
    rcases List.pairwise_cons.mp hu with ⟨hx, hu2⟩
    refine List.pairwise_cons.mpr ⟨?_, ih hu2⟩
    intro w hw hcontra
    obtain ⟨z, hz, hrz⟩ := mem_right_of_forall₂ hrest w hw
    refine hx z hz ⟨?_, ?_⟩
    · rw [← hr.1, hcontra.1, hrz.1]
    · rw [← hr.2.1, hcontra.2, hrz.2.1]

theorem UniquePairs_eq (l : List StockRecord) (hu : UniquePairs l) (a b : StockRecord)
    (ha : a ∈ l) (hb : b ∈ l) (hwh : a.warehouse_id = b.warehouse_id)
    (hpid : a.product_id = b.product_id) : a = b := by
  induction l with
  | nil => cases ha
  | cons x rest ih =>
    rcases List.pairwise_cons.mp hu with ⟨hx, hu2⟩
    rcases List.mem_cons.mp ha with rfl | ha2
    · rcases List.mem_cons.mp hb with rfl | hb2
      · rfl
      · exact absurd ⟨hwh, hpid⟩ (hx b hb2)
    · rcases List.mem_cons.mp hb with rfl | hb2
      · exact absurd ⟨hwh.symm, hpid.symm⟩ (hx a ha2)
      · exact ih hu2 ha2 hb2

theorem processOrder_stock (t : TrigModel) (wh : List Warehouse) (init : List StockRecord)
    (hu : UniquePairs init) (st st' : OptState) (o : Order)
    (hinv : StockInvariant init st.inventory_levels st.alloc_log)
    (hnn : ∀ s ∈ st.inventory_levels, 0 ≤ s.current_stock)
    (hp : processOrder t wh st o = some st') :
    StockInvariant init st'.inventory_levels st'.alloc_log ∧
      ∀ s ∈ st'.inventory_levels, 0 ≤ s.current_stock := by
  cases hscan : scanCandidates t wh o
      (st.inventory_levels.filter (fun s => s.product_id == o.product_id)) ⟨none, ⊤, ⊤⟩ with
  | none =>
    simp only [processOrder, hscan] at hp
    exact Option.noConfusion hp
  | some best =>
    cases hwid : best.warehouse_id with
    | none =>
      simp only [processOrder, hscan, hwid] at hp
      injection hp with hp
      subst hp
      exact ⟨hinv, hnn⟩
    | some wid =>
      simp only [processOrder, hscan, hwid] at hp
      injection hp with hp
      subst hp
      rcases scanCandidates_mem t wh o _ _ _ hscan with hctr | ⟨ssel, hmem, hfeas, hid⟩
      · rw [hwid] at hctr; cases hctr
      rw [hwid] at hid
      injection hid with hid
      obtain ⟨hselmem, hselpid⟩ := List.mem_filter.mp hmem
      have hselpid2 : ssel.product_id = o.product_id := by simpa using hselpid
      have hucur : UniquePairs st.inventory_levels :=
        StockInvariant_unique st.alloc_log init st.inventory_levels hinv hu
      constructor
      · unfold StockInvariant
        rw [List.forall₂_map_right_iff]
        refine List.Forall₂.imp ?_ hinv
        intro a b hr
        obtain ⟨hr1, hr2, hr3⟩ := hr
        dsimp only
        by_cases hb : (b.warehouse_id == wid && b.product_id == o.product_id) = true
        · rw [if_pos hb]
          obtain ⟨hbw, hbp⟩ := Bool.and_eq_true_iff.mp hb
          refine ⟨hr1, hr2, ?_⟩
          rw [allocatedQty_append]
          have hcw : ((⟨wid, o.product_id, o.quantity⟩ : AllocCommit).warehouse_id ==
              a.warehouse_id && (⟨wid, o.product_id, o.quantity⟩ : AllocCommit).product_id ==
              a.product_id) = true := by
            simp only [Bool.and_eq_true, beq_iff_eq]
            constructor
            · rw [← hr1]; exact (beq_iff_eq.mp hbw).symm
            · rw [← hr2]; exact (beq_iff_eq.mp hbp).symm
          rw [if_pos hcw]
          dsimp only
          omega
        · rw [if_neg hb]
          refine ⟨hr1, hr2, ?_⟩
          rw [allocatedQty_append]
          have hcw : ((⟨wid, o.product_id, o.quantity⟩ : AllocCommit).warehouse_id ==
              a.warehouse_id && (⟨wid, o.product_id, o.quantity⟩ : AllocCommit).product_id ==
              a.product_id) = false := by
            cases hcweq : ((⟨wid, o.product_id, o.quantity⟩ : AllocCommit).warehouse_id ==
                a.warehouse_id && (⟨wid, o.product_id, o.quantity⟩ : AllocCommit).product_id ==
                a.product_id) with
            | false => rfl
            | true =>
              obtain ⟨h1b, h2b⟩ := Bool.and_eq_true_iff.mp hcweq
              refine absurd ?_ hb
              simp only [Bool.and_eq_true, beq_iff_eq]
              exact ⟨by rw [hr1]; exact (beq_iff_eq.mp h1b).symm,
                     by rw [hr2]; exact (beq_iff_eq.mp h2b).symm⟩
          rw [hcw, if_neg Bool.false_ne_true]
          omega
      · intro x hx
        obtain ⟨b, hbmem, hbeq⟩ := List.mem_map.mp hx
        by_cases hb : (b.warehouse_id == wid && b.product_id == o.product_id) = true
        · rw [if_pos hb] at hbeq
          obtain ⟨hbw, hbp⟩ := Bool.and_eq_true_iff.mp hb
          have hbssel : b = ssel := by
            refine UniquePairs_eq st.inventory_levels hucur b ssel hbmem hselmem ?_ ?_
            · rw [beq_iff_eq.mp hbw, hid]
            · rw [beq_iff_eq.mp hbp, hselpid2]
          rw [← hbeq]
          dsimp only
          rw [hbssel]
          omega
        · rw [if_neg hb] at hbeq
          rw [← hbeq]
          exact hnn b hbmem

theorem foldOrders_stock (t : TrigModel) (wh : List Warehouse) (init : List StockRecord)
    (hu : UniquePairs init) :
    ∀ (l : List Order) (st st' : OptState),
      StockInvariant init st.inventory_levels st.alloc_log →
      (∀ s ∈ st.inventory_levels, 0 ≤ s.current_stock) →
      foldOrders t wh st l = some st' →
      StockInvariant init st'.inventory_levels st'.alloc_log ∧
        ∀ s ∈ st'.inventory_levels, 0 ≤ s.current_stock := by
  intro l
  induction l with
  | nil =>
    intro st st' hinv hnn hf
    simp only [foldOrders, Option.some.injEq] at hf
    rw [← hf]
    exact ⟨hinv, hnn⟩
  | cons o rest ih =>
    intro st st' hinv hnn hf
    simp only [foldOrders] at hf
    cases hpo : processOrder t wh st o with
    | none => rw [hpo] at hf; cases hf
    | some st2 =>
      rw [hpo] at hf
      obtain ⟨hinv2, hnn2⟩ := processOrder_stock t wh init hu st st2 o hinv hnn hpo
      exact ih st2 st' hinv2 hnn2 hf

theorem planOrderIds_cons (k : String) (es : List AllocationEntry)
    (rest : List (String × List AllocationEntry)) :
    planOrderIds ((k, es) :: rest) = es.map (fun e => e.order_id) ++ planOrderIds rest := by
  simp [planOrderIds]

theorem planOrderIds_addToPlan (e : AllocationEntry) :
    ∀ (plan : List (String × List AllocationEntry)) (wid : String),
      List.Perm (planOrderIds (addToPlan plan wid e)) (e.order_id :: planOrderIds plan) := by
  intro plan
  induction plan with
  | nil => intro wid; simp [addToPlan, planOrderIds]
  | cons kv rest ih =>
    intro wid
    obtain ⟨k, es⟩ := kv
    by_cases hk : k = wid
    · rw [show addToPlan ((k, es) :: rest) wid e = (k, es ++ [e]) :: rest from by
        simp [addToPlan, hk]]
      rw [planOrderIds_cons, planOrderIds_cons, List.map_append, List.append_assoc]
      simp only [List.map_cons, List.map_nil, List.singleton_append]
      exact List.perm_middle
    · rw [show addToPlan ((k, es) :: rest) wid e = (k, es) :: addToPlan rest wid e from by
        simp [addToPlan, hk]]
      rw [planOrderIds_cons, planOrderIds_cons]
      exact (List.Perm.append_left _ (ih wid)).trans List.perm_middle

theorem processOrder_ids (t : TrigModel) (wh : List Warehouse) (st st' : OptState)
    (o : Order) (hp : processOrder t wh st o = some st') :
    List.Perm (stateIds st') (o.order_id :: stateIds st) ∧
      ∀ e ∈ st'.unfulfilled_orders, e ∈ st.unfulfilled_orders ∨
        (e.order_id = o.order_id ∧ e.quantity = o.quantity ∧
          e.reason = "Insufficient stock for product " ++ o.product_id) := by
  cases hscan : scanCandidates t wh o
      (st.inventory_levels.filter (fun s => s.product_id == o.product_id)) ⟨none, ⊤, ⊤⟩ with
  | none =>
    simp only [processOrder, hscan] at hp
    exact Option.noConfusion hp
  | some best =>
    cases hwid : best.warehouse_id with
    | none =>
      simp only [processOrder, hscan, hwid] at hp
      injection hp with hp
      subst hp
      constructor
      · unfold stateIds
        dsimp only
        rw [List.map_append, ← List.append_assoc]
        exact List.perm_append_comm
      · intro e he
        dsimp only at he
        rcases List.mem_append.mp he with he | he
        · exact Or.inl he
        · rcases List.mem_singleton.mp he with rfl
          exact Or.inr ⟨rfl, rfl, rfl⟩
    | some wid =>
      simp only [processOrder, hscan, hwid] at hp
      injection hp with hp
      subst hp
      constructor
      · unfold stateIds
        dsimp only
        exact List.Perm.append_right _
          (planOrderIds_addToPlan ⟨o.order_id, o.quantity, best.cost, best.distance⟩
            st.allocation_plan wid)
      · intro e he
        exact Or.inl he

theorem foldOrders_ids (t : TrigModel) (wh : List Warehouse) :
    ∀ (l : List Order) (st st' : OptState), foldOrders t wh st l = some st' →
      List.Perm (stateIds st') (l.map (fun o => o.order_id) ++ stateIds st) ∧
        ∀ e ∈ st'.unfulfilled_orders, e ∈ st.unfulfilled_orders ∨
          ∃ o ∈ l, e.order_id = o.order_id ∧ e.quantity = o.quantity ∧
            e.reason = "Insufficient stock for product " ++ o.product_id := by
  intro l
  induction l with
  | nil =>
    intro st st' hf
    simp only [foldOrders, Option.some.injEq] at hf
    subst hf
    exact ⟨by simp, fun e he => Or.inl he⟩
  | cons o rest ih =>
    intro st st' hf
    simp only [foldOrders] at hf
    cases hpo : processOrder t wh st o with
    | none => rw [hpo] at hf; cases hf
    | some st2 =>
      rw [hpo] at hf
      obtain ⟨hperm2, hunf2⟩ := processOrder_ids t wh st st2 o hpo
      obtain ⟨hperm3, hunf3⟩ := ih st2 st' hf
      constructor
      · rw [List.map_cons]
        exact hperm3.trans ((List.Perm.append_left _ hperm2).trans List.perm_middle)
      · intro e he
        rcases hunf3 e he with he2 | ⟨o2, ho2, hprops⟩
        · rcases hunf2 e he2 with he3 | hprops
          · exact Or.inl he3
          · exact Or.inr ⟨o, List.mem_cons_self o rest, hprops⟩
        · exact Or.inr ⟨o2, List.mem_cons_of_mem o ho2, hprops⟩

theorem orderLE_iff (a b : Order) : orderLE a b = true ↔ keyLE a b := by
  simp [orderLE, keyLE, Bool.or_eq_true, Bool.and_eq_true, decide_eq_true_eq, beq_iff_eq]

theorem orderLE_total (a b : Order) : orderLE a b || orderLE b a := by
  by_cases h1 : a.status < b.status
  · simp [orderLE, h1]
  · by_cases h2 : b.status < a.status
    · simp [orderLE, h2]
    · have he : a.status = b.status := le_antisymm (not_lt.mp h2) (not_lt.mp h1)
      rcases le_total a.quantity b.quantity with hq | hq
      · simp [orderLE, he, hq]
      · simp [orderLE, he, hq]

theorem orderLE_trans (a b c : Order) (hab : orderLE a b = true) (hbc : orderLE b c = true) :
    orderLE a c = true := by
  simp only [orderLE, Bool.or_eq_true, Bool.and_eq_true, decide_eq_true_eq,
    beq_iff_eq] at hab hbc ⊢
  rcases hab with hab | ⟨hab1, hab2⟩
  · rcases hbc with hbc | ⟨hbc1, hbc2⟩
    · exact Or.inl (lt_trans hab hbc)
    · exact Or.inl (by rw [← hbc1]; exact hab)
  · rcases hbc with hbc | ⟨hbc1, hbc2⟩
    · exact Or.inl (by rw [hab1]; exact hbc)
    · exact Or.inr ⟨hab1.trans hbc1, le_trans hbc2 hab2⟩

theorem foldOrdersHeap_fst_frame (t : TrigModel) (wh : List Warehouse) (workRef : Nat) :
    ∀ (l : List Order) (h : StockHeap) (st : OptState) (j : Nat), j ≠ workRef →
      ((foldOrdersHeap t wh workRef h st l).1).get? j = h.get? j := by
  intro l
  induction l with
  | nil => intro h st j hj; rfl
  | cons o rest ih =>
    intro h st j hj
    cases hpo : processOrder t wh
        { st with inventory_levels := (h.get? workRef).getD [] } o with
    | none => simp only [foldOrdersHeap, hpo]
    | some st2 =>
      simp only [foldOrdersHeap, hpo]
      rw [ih (h.set workRef st2.inventory_levels) st2 j hj]
      simp only [List.get?_eq_getElem?]
      exact List.getElem?_set_ne (Ne.symm hj)

theorem foldOrdersHeap_snd (t : TrigModel) (wh : List Warehouse) (workRef : Nat) :
    ∀ (l : List Order) (h : StockHeap) (st : OptState),
      workRef < h.length → h.get? workRef = some st.inventory_levels →
      (foldOrdersHeap t wh workRef h st l).2 = foldOrders t wh st l := by
  intro l
  induction l with
  | nil => intro h st hlt hcell; rfl
  | cons o rest ih =>
    intro h st hlt hcell
    have hst : ({ st with inventory_levels := (h.get? workRef).getD [] } : OptState) = st := by
      rw [hcell]
      rfl
    rw [show (foldOrdersHeap t wh workRef h st (o :: rest)) =
        (match processOrder t wh { st with inventory_levels := (h.get? workRef).getD [] } o with
         | none => (h, none)
         | some st2 =>
           foldOrdersHeap t wh workRef (h.set workRef st2.inventory_levels) st2 rest) from rfl]
    rw [hst]
    cases hpo : processOrder t wh st o with
    | none => simp only [hpo, foldOrders]
    | some st2 =>
      simp only [hpo, foldOrders]
      exact ih (h.set workRef st2.inventory_levels) st2
        (by simp only [List.length_set]; exact hlt)
        (by
          rw [List.get?_eq_getElem?]
          exact List.getElem?_set_self hlt)

theorem optimizeHeap_fst (self : InventoryOptimizer) (t : TrigModel) (wh : List Warehouse)
    (orders : List Order) (h : StockHeap) (invRef : Nat) (hlt : invRef < h.length) :
    ((optimizeHeap self t wh orders h invRef).1).get? invRef = h.get? invRef := by
  have hframe := foldOrdersHeap_fst_frame t wh h.length (sortOrders orders)
    (h ++ [(h.get? invRef).getD []]) (initState ((h.get? invRef).getD [])) invRef
    (Nat.ne_of_lt hlt)
  have happ : (h ++ [(h.get? invRef).getD []]).get? invRef = h.get? invRef := by
    rw [List.get?_eq_getElem?, List.get?_eq_getElem?]
    exact List.getElem?_append_left hlt
  cases hfold : foldOrdersHeap t wh h.length (h ++ [(h.get? invRef).getD []])
      (initState ((h.get? invRef).getD [])) (sortOrders orders) with
  | mk h2 r =>
    rw [hfold] at hframe
    cases r with
    | none =>
      simp only [optimizeHeap, hfold]
      exact hframe.trans happ
    | some st =>
      simp only [optimizeHeap, hfold]
      exact hframe.trans happ

theorem optimizeHeap_snd (self : InventoryOptimizer) (t : TrigModel) (wh : List Warehouse)
    (orders : List Order) (h : StockHeap) (invRef : Nat) :
    (optimizeHeap self t wh orders h invRef).2 =
      optimize self t wh orders ((h.get? invRef).getD []) := by
  have hcell : (h ++ [(h.get? invRef).getD []]).get? h.length =
      some ((h.get? invRef).getD []) := by
    rw [List.get?_eq_getElem?]
    exact List.getElem?_concat_length h _
  have hsnd := foldOrdersHeap_snd t wh h.length (sortOrders orders)
    (h ++ [(h.get? invRef).getD []]) (initState ((h.get? invRef).getD []))
    (by simp only [List.length_append, List.length_cons, List.length_nil]; omega) hcell
  cases hfold : foldOrdersHeap t wh h.length (h ++ [(h.get? invRef).getD []])
      (initState ((h.get? invRef).getD [])) (sortOrders orders) with
  | mk h2 r =>
    rw [hfold] at hsnd
    cases r with
    | none =>
      simp only [optimizeHeap, hfold]
      unfold optimize
      rw [← hsnd]
    | some st =>
      simp only [optimizeHeap, hfold]
      unfold optimize
      rw [← hsnd]

theorem roundHalfEven_abs (x : ℚ) : |x - (roundHalfEven x : ℚ)| ≤ 1 / 2 := by
  have h0 : ((⌊x⌋ : Int) : ℚ) ≤ x := Int.floor_le x
  have h1 : x < (⌊x⌋ : Int) + 1 := Int.lt_floor_add_one x
  simp only [roundHalfEven]
  by_cases hr1 : x - ((⌊x⌋ : Int) : ℚ) < 1 / 2
  · rw [if_pos hr1, abs_le]
    constructor <;> linarith
  · rw [if_neg hr1]
    by_cases hr2 : 1 / 2 < x - ((⌊x⌋ : Int) : ℚ)
    · rw [if_pos hr2, abs_le]
      push_cast
      constructor <;> linarith
    · rw [if_neg hr2]
      by_cases he : (⌊x⌋ : Int) % 2 = 0
      · rw [if_pos he, abs_le]
        constructor <;> linarith
      · rw [if_neg he, abs_le]
        push_cast
        constructor <;> linarith

theorem round2_spec (x : ℚ) :
    (∃ n : Int, round2 x = (n : ℚ) / 100) ∧ |x - round2 x| ≤ 1 / 200 := by
  constructor
  · exact ⟨roundHalfEven (x * 100), rfl⟩
  · unfold round2
    have h := roundHalfEven_abs (x * 100)
    rw [abs_le] at h ⊢
    obtain ⟨ha, hb⟩ := h
    constructor <;> linarith

/-! ### Claim theorems -/

/-- Claim C7: the solver time limit configuration is accepted but not
enforced: two `optimize` runs on identical warehouses, orders and stock
that differ only in the configured `solver_time` produce identical
allocation plans, unfulfilled lists, total cost and status (the wall-clock
`solving_time` field is outside the model). -/
theorem optimize_solver_time_noninterference (t : TrigModel) (t1 t2 : Int) (d u : String)
    (warehouses : List Warehouse) (orders : List Order) (inventory : List StockRecord) :
    optimize ⟨t1, d, u⟩ t warehouses orders inventory =
      optimize ⟨t2, d, u⟩ t warehouses orders inventory := rfl

/-- Claim C5: `calculate_distance` never raises past its boundary: whenever
a coordinate is missing or non-numeric it returns the infinite sentinel,
and a candidate whose cost is infinite is never selected by the
best-candidate scan, so it is excluded rather than crashing the loop. -/
theorem calculate_distance_sentinel :
    (∀ (t : TrigModel) (w : Warehouse) (o : Order),
      (w.latitude = none ∨ w.longitude = none ∨
        o.delivery_latitude = none ∨ o.delivery_longitude = none) →
      calculate_distance t w o = ⊤) ∧
    (∀ (t : TrigModel) (wh : List Warehouse) (o : Order) (l : List StockRecord)
      (best' : BestAlloc), scanCandidates t wh o l ⟨none, ⊤, ⊤⟩ = some best' →
      best'.warehouse_id.isSome → best'.cost < ⊤) := by
  constructor
  · intro t w o hcase
    rcases hcase with h | h | h | h
    · simp [calculate_distance, h]
    · cases h1 : w.latitude <;> simp [calculate_distance, h1, h]
    · cases h1 : w.latitude <;> cases h2 : w.longitude <;>
        simp [calculate_distance, h1, h2, h]
    · cases h1 : w.latitude <;> cases h2 : w.longitude <;>
        cases h3 : o.delivery_latitude <;> simp [calculate_distance, h1, h2, h3, h]
  · intro t wh o l best' hscan
    exact scanCandidates_finite t wh o l ⟨none, ⊤, ⊤⟩ best' hscan
      (fun hfalse => Bool.noConfusion hfalse)

/-- Claim C5 witness: a warehouse with a missing latitude is scored with the
infinite sentinel. -/
theorem calculate_distance_sentinel_witness :
    calculate_distance trig0 ⟨"W2", none, some 0, 5⟩ ord0 = ⊤ :=
  calculate_distance_sentinel.1 trig0 ⟨"W2", none, some 0, 5⟩ ord0 (Or.inl rfl)

/-- Claim C9: if a sufficiently stocked record for the processed order
names a warehouse with no row in `warehouses`, the whole `optimize` call
fails (`none`): the per-order scan aborts and the failure propagates, so no
partial plan is returned. -/
theorem optimize_missing_warehouse_raises :
    (∀ (t : TrigModel) (wh : List Warehouse) (st : OptState) (o : Order),
      (∃ s ∈ st.inventory_levels, s.product_id = o.product_id ∧
        o.quantity ≤ s.current_stock ∧ lookupWarehouse wh s.warehouse_id = none) →
      processOrder t wh st o = none) ∧
    (∀ (self : InventoryOptimizer) (t : TrigModel) (wh : List Warehouse)
      (orders : List Order) (inventory : List StockRecord) (l1 l2 : List Order)
      (o : Order) (st : OptState),
      sortOrders orders = l1 ++ o :: l2 →
      foldOrders t wh (initState inventory) l1 = some st →
      processOrder t wh st o = none →
      optimize self t wh orders inventory = none) := by
  constructor
  · intro t wh st o ⟨s, hmem, hpid, hq, hlw⟩
    have hsmem : s ∈ st.inventory_levels.filter (fun x => x.product_id == o.product_id) :=
      List.mem_filter.mpr ⟨hmem, by simp [hpid]⟩
    have hscan := scanCandidates_none_of_missing t wh o s hq hlw _ ⟨none, ⊤, ⊤⟩ hsmem
    simp only [processOrder, hscan]
  · intro self t wh orders inventory l1 l2 o st hsort hfold hpo
    unfold optimize
    rw [hsort, foldOrders_append, hfold]
    simp only [foldOrders, hpo]

/-- Claim C9 witness: with an empty warehouse table and one feasible stock
row, the whole run fails. -/
theorem optimize_missing_warehouse_raises_witness :
    optimize opt0 trig0 [] [ord0] [stk0] = none := by
  refine optimize_missing_warehouse_raises.2 opt0 trig0 [] [ord0] [stk0] [] [] ord0
    (initState [stk0]) (by simp [sortOrders]) rfl ?_
  exact optimize_missing_warehouse_raises.1 trig0 [] (initState [stk0]) ord0
    ⟨stk0, by simp [initState, stk0], rfl, by decide, rfl⟩

/-- Claim C1: for every order processed by `optimize` (each order goes
through one `processOrder` step of the fold), the candidate set is the
stock records matching the order's product whose quantity covers the
request; each candidate is scored with
`haversine(warehouse, delivery) * 10 + storage_cost * 0.1` (Haversine with
Earth radius 6371 km, degrees converted to radians), and the order is
committed to the minimum-cost candidate, ties broken in favour of the
first-encountered candidate in stock-row order.  Hypotheses: the order's
delivery coordinates are numeric and every sufficiently stocked matching
row resolves to a warehouse with numeric coordinates (otherwise the cost is
not the Haversine formula but the error sentinel, see C5/C9). -/
theorem optimize_commits_min_cost (t : TrigModel) (wh : List Warehouse) (st : OptState)
    (o : Order) (ho1 : o.delivery_latitude.isSome) (ho2 : o.delivery_longitude.isSome)
    (hok : ∀ s ∈ st.inventory_levels.filter (fun s => s.product_id == o.product_id),
      o.quantity ≤ s.current_stock → warehouseOk wh s = true)
    (hne : candidates st.inventory_levels o ≠ []) :
    (∀ (self : InventoryOptimizer) (orders : List Order) (inventory : List StockRecord),
      optimize self t wh orders inventory =
        match foldOrders t wh (initState inventory) (sortOrders orders) with
        | none => none
        | some st2 => some ⟨st2.allocation_plan, [], st2.unfulfilled_orders, st2.total_cost,
            "Completed"⟩) ∧
    ∃ s0 pre post,
      selectMinFirst (cost_spec t wh o) (candidates st.inventory_levels o) = some s0 ∧
      candidates st.inventory_levels o = pre ++ s0 :: post ∧
      (∀ s ∈ pre, cost_spec t wh o s0 < cost_spec t wh o s) ∧
      (∀ s ∈ post, cost_spec t wh o s0 ≤ cost_spec t wh o s) ∧
      processOrder t wh st o = some { st with
        inventory_levels := st.inventory_levels.map (fun s =>
          if s.warehouse_id == s0.warehouse_id && s.product_id == o.product_id then
            { s with current_stock := s.current_stock - o.quantity }
          else s)
        allocation_plan := addToPlan st.allocation_plan s0.warehouse_id
          ⟨o.order_id, o.quantity, cost_spec t wh o s0, dist_spec t wh o s0⟩
        total_cost := st.total_cost + cost_spec t wh o s0
        alloc_log := st.alloc_log ++ [⟨s0.warehouse_id, o.product_id, o.quantity⟩] } := by
  refine ⟨fun self orders inventory => rfl, ?_⟩
  have hc : candidates st.inventory_levels o =
      (st.inventory_levels.filter (fun s => s.product_id == o.product_id)).filter
        (fun s => decide (o.quantity ≤ s.current_stock)) := rfl
  cases hsel : selectMinFirst (cost_spec t wh o) (candidates st.inventory_levels o) with
  | none =>
    cases hcand : candidates st.inventory_levels o with
    | nil => exact absurd hcand hne
    | cons c cs =>
      have hsome := selectMinFirst_cons_isSome (cost_spec t wh o) c cs
      rw [← hcand, hsel] at hsome
      cases hsome
  | some s0 =>
    have hs0mem := selectMinFirst_mem _ _ _ hsel
    obtain ⟨pre, post, hsplit, hpre, hpost⟩ := selectMinFirst_spec _ _ _ hsel
    have hs0feas : o.quantity ≤ s0.current_stock := by
      have := (List.mem_filter.mp (hc ▸ hs0mem)).2
      simpa using this
    have hs0poss : s0 ∈ st.inventory_levels.filter (fun s => s.product_id == o.product_id) :=
      (List.mem_filter.mp (hc ▸ hs0mem)).1
    obtain ⟨w, wlat, wlon, hlw, hwlat, hwlon⟩ :=
      warehouseOk_elim wh s0 (hok s0 hs0poss hs0feas)
    have hcostlt : cost_spec t wh o s0 < ⊤ := by
      obtain ⟨olat, ho3⟩ := Option.isSome_iff_exists.mp ho1
      obtain ⟨olon, ho4⟩ := Option.isSome_iff_exists.mp ho2
      simp only [cost_spec, hlw, hwlat, hwlon, ho3, ho4]
      exact WithTop.coe_lt_top _
    have hscan := scanCandidates_eq t wh o ho1 ho2
      (st.inventory_levels.filter (fun s => s.product_id == o.product_id)) ⟨none, ⊤, ⊤⟩ hok
    rw [← hc, hsel] at hscan
    dsimp only at hscan
    rw [if_pos hcostlt] at hscan
    refine ⟨s0, pre, post, rfl, hsplit, hpre, hpost, ?_⟩
    simp only [processOrder, hscan]

/-- Claim C1 witness: one candidate warehouse at the origin; the order is
committed to it with cost `0 * 10 + 100 * 0.1`. -/
theorem optimize_commits_min_cost_witness :
    ∃ s0 pre post,
      selectMinFirst (cost_spec trig0 [wh0] ord0) (candidates [stk0] ord0) = some s0 ∧
      candidates [stk0] ord0 = pre ++ s0 :: post ∧
      (∀ s ∈ pre, cost_spec trig0 [wh0] ord0 s0 < cost_spec trig0 [wh0] ord0 s) ∧
      (∀ s ∈ post, cost_spec trig0 [wh0] ord0 s0 ≤ cost_spec trig0 [wh0] ord0 s) ∧
      processOrder trig0 [wh0] (initState [stk0]) ord0 = some { initState [stk0] with
        inventory_levels := [stk0].map (fun s =>
          if s.warehouse_id == s0.warehouse_id && s.product_id == ord0.product_id then
            { s with current_stock := s.current_stock - ord0.quantity }
          else s)
        allocation_plan := addToPlan (initState [stk0]).allocation_plan s0.warehouse_id
          ⟨ord0.order_id, ord0.quantity, cost_spec trig0 [wh0] ord0 s0,
            dist_spec trig0 [wh0] ord0 s0⟩
        total_cost := (initState [stk0]).total_cost + cost_spec trig0 [wh0] ord0 s0
        alloc_log := (initState [stk0]).alloc_log ++
          [⟨s0.warehouse_id, ord0.product_id, ord0.quantity⟩] } :=
  (optimize_commits_min_cost trig0 [wh0] (initState [stk0]) ord0 rfl rfl
    (by decide) (by decide)).2

/-- Claim C2: at every point of an `optimize` run (after any prefix of the
sorted order sequence), every working-copy stock row holds its pre-run
quantity minus the total quantity committed against its
(warehouse, product) pair, and no row is ever negative — assuming at most
one stock record per pair, non-negative order quantities and non-negative
initial stock. -/
theorem optimize_stock_depletion (t : TrigModel) (wh : List Warehouse)
    (orders : List Order) (inventory : List StockRecord)
    (hu : UniquePairs inventory)
    (hq : ∀ o ∈ orders, 0 ≤ o.quantity)
    (hs : ∀ s ∈ inventory, 0 ≤ s.current_stock) :
    ∀ (pre suf : List Order) (st : OptState),
      sortOrders orders = pre ++ suf →
      foldOrders t wh (initState inventory) pre = some st →
      StockInvariant inventory st.inventory_levels st.alloc_log ∧
        ∀ s ∈ st.inventory_levels, 0 ≤ s.current_stock := by
  intro pre suf st hsort hfold
  exact foldOrders_stock t wh inventory hu pre (initState inventory) st
    (StockInvariant_init inventory) hs hfold

/-- Claim C2 witness: after allocating `ord0` (500 units) against `stk0`
(500 units), the working copy holds 0 units and the accounting identity
holds. -/
theorem optimize_stock_depletion_witness :
    StockInvariant [stk0] [(⟨"W1", "P1", 0⟩ : StockRecord)] [(⟨"W1", "P1", 500⟩ : AllocCommit)] ∧
      ∀ s ∈ [(⟨"W1", "P1", 0⟩ : StockRecord)], 0 ≤ s.current_stock :=
  optimize_stock_depletion trig0 [wh0] [ord0] [stk0] (List.pairwise_singleton _ _)
    (by decide) (by decide)
    [ord0] [] ⟨[⟨"W1", "P1", 0⟩],
      [("W1", [⟨"O1", 500, ((10 : ℚ) : QInf), ((0 : ℚ) : QInf)⟩])], [],
      ((10 : ℚ) : QInf), [⟨"W1", "P1", 500⟩]⟩
    (by simp [sortOrders])
    (by norm_num [foldOrders, processOrder, scanCandidates, lookupWarehouse,
      calculate_distance, radiansQ, trig0, wh0, ord0, stk0, initState, addToPlan,
      WithTop.lt_top_iff_ne_top])

/-- Claim C3: on every successful run, the order ids recorded in the
allocation plan together with those in the unfulfilled list are a
permutation of the input order ids (every input order lands in exactly one
of the two), and every unfulfilled entry carries its order's quantity and
the reason string `"Insufficient stock for product <product_id>"`. -/
theorem optimize_partitions_orders (self : InventoryOptimizer) (t : TrigModel)
    (wh : List Warehouse) (orders : List Order) (inventory : List StockRecord)
    (res : Results) (h : optimize self t wh orders inventory = some res) :
    List.Perm (planOrderIds res.allocation_plan ++
        res.unfulfilled_orders.map (fun e => e.order_id))
      (orders.map (fun o => o.order_id)) ∧
    ∀ e ∈ res.unfulfilled_orders, ∃ o ∈ orders, e.order_id = o.order_id ∧
      e.quantity = o.quantity ∧
      e.reason = "Insufficient stock for product " ++ o.product_id := by
  unfold optimize at h
  cases hfold : foldOrders t wh (initState inventory) (sortOrders orders) with
  | none => rw [hfold] at h; cases h
  | some st =>
    rw [hfold] at h
    injection h with h
    subst h
    obtain ⟨hperm, hunf⟩ := foldOrders_ids t wh (sortOrders orders) (initState inventory) st hfold
    constructor
    · have hinit : stateIds (initState inventory) = [] := rfl
      rw [hinit, List.append_nil] at hperm
      exact hperm.trans (List.Perm.map _ (List.mergeSort_perm orders orderLE))
    · intro e he
      rcases hunf e he with he2 | ⟨o, ho, hprops⟩
      · cases he2
      · exact ⟨o, List.mem_mergeSort.mp ho, hprops⟩

/-- Claim C3 witness: with only 400 units in stock, `ord0` lands in the
unfulfilled list with the documented reason, and the id multisets match. -/
theorem optimize_partitions_orders_witness :
    List.Perm (planOrderIds ([] : List (String × List AllocationEntry)) ++
        [(⟨"O1", 500, "Insufficient stock for product P1"⟩ : UnfulfilledEntry)].map
          (fun e => e.order_id))
      ([ord0].map (fun o => o.order_id)) ∧
    ∀ e ∈ [(⟨"O1", 500, "Insufficient stock for product P1"⟩ : UnfulfilledEntry)],
      ∃ o ∈ [ord0], e.order_id = o.order_id ∧ e.quantity = o.quantity ∧
        e.reason = "Insufficient stock for product " ++ o.product_id := by
  have hopt : optimize opt0 trig0 [wh0] [ord0] [stkLow] =
      some ⟨[], [], [⟨"O1", 500, "Insufficient stock for product P1"⟩],
        ((0 : ℚ) : QInf), "Completed"⟩ := by
    unfold optimize
    rw [show sortOrders [ord0] = [ord0] from by simp [sortOrders]]
    decide
  exact optimize_partitions_orders opt0 trig0 [wh0] [ord0] [stkLow] _ hopt

/-- Claim C4: `optimize` iterates the orders in the sequence of a two-key
sort — status ascending, then requested quantity descending — and the sort
is stable: the sequence is a permutation of the input, consecutive elements
respect the two keys, and any two orders tying on both keys keep their
original relative position. -/
theorem optimize_sort_order (orders : List Order) :
    List.Perm (sortOrders orders) orders ∧
    (sortOrders orders).Pairwise keyLE ∧
    ∀ a b : Order, a.status = b.status → a.quantity = b.quantity →
      List.Sublist [a, b] orders → List.Sublist [a, b] (sortOrders orders) := by
  refine ⟨List.mergeSort_perm orders orderLE, ?_, ?_⟩
  · have hs := List.sorted_mergeSort orderLE_trans orderLE_total orders
    exact hs.imp (fun hab => (orderLE_iff _ _).mp hab)
  · intro a b hst hqt hsub
    refine List.pair_sublist_mergeSort orderLE_trans orderLE_total ?_ hsub
    simp [orderLE, hst, hqt]

/-- Claim C4 witness: two orders tying on status and quantity keep their
input order in the sorted sequence. -/
theorem optimize_sort_order_witness :
    List.Sublist [ordA, ordB] (sortOrders [ordA, ordB]) :=
  (optimize_sort_order [ordA, ordB]).2.2 ordA ordB rfl rfl (List.Sublist.refl _)

theorem pyRound2_eq_none_iff (v : PyVal) : pyRound2 v = none ↔ v.isNum = false := by
  cases v <;> simp [pyRound2, PyVal.isNum]

theorem pyRound2_some {v x : PyVal} (h : pyRound2 v = some x) : ∃ q : ℚ, x = PyVal.num q := by
  cases v with
  | num q =>
    simp only [pyRound2, Option.some.injEq] at h
    exact ⟨round2 q, h.symm⟩
  | pyNone => simp [pyRound2] at h
  | str s => simp [pyRound2] at h

/-- Claim C6: `optimize` never mutates the caller's stock dataset: in the
store-passing model, the caller's heap cell is unchanged by a run
(successful or failed, since the frame lemma holds for every outcome), and
re-running on the resulting heap yields the same result — repeated runs
start from the same baseline. -/
theorem optimize_does_not_mutate_caller (self : InventoryOptimizer) (t : TrigModel)
    (wh : List Warehouse) (orders : List Order) (h : StockHeap) (invRef : Nat)
    (hlt : invRef < h.length) :
    ((optimizeHeap self t wh orders h invRef).1).get? invRef = h.get? invRef ∧
    (optimizeHeap self t wh orders ((optimizeHeap self t wh orders h invRef).1) invRef).2 =
      (optimizeHeap self t wh orders h invRef).2 := by
  refine ⟨optimizeHeap_fst self t wh orders h invRef hlt, ?_⟩
  rw [optimizeHeap_snd, optimizeHeap_snd,
    optimizeHeap_fst self t wh orders h invRef hlt]

/-- Claim C6 witness: one heap cell holding the caller's stock rows. -/
theorem optimize_does_not_mutate_caller_witness :
    ((optimizeHeap opt0 trig0 [wh0] [ord0] [[stk0]] 0).1).get? 0 = [[stk0]].get? 0 ∧
    (optimizeHeap opt0 trig0 [wh0] [ord0]
        ((optimizeHeap opt0 trig0 [wh0] [ord0] [[stk0]] 0).1) 0).2 =
      (optimizeHeap opt0 trig0 [wh0] [ord0] [[stk0]] 0).2 :=
  optimize_does_not_mutate_caller opt0 trig0 [wh0] [ord0] [[stk0]] 0 (by decide)

/-- Claim C8: `get_optimization_summary` returns `total_cost` and
`solving_time` rounded to 2 decimals (the rounded value is an integer
multiple of 1/100 within 1/200 of the input), passes `status` through with
default `"Unknown"`, and defaults every missing field rather than failing:
`total_cost`/`solving_time` default to 0 via `.get(_, 0)` and the timestamp
key is always present, defaulting to `None`.  The embedding is a pure
function of the plan dict, which it returns unchanged by construction. -/
theorem get_optimization_summary_contract (results : PyDict) (q1 q2 : ℚ)
    (h1 : dget results ("total_cost") (PyVal.num 0) = PyVal.num q1)
    (h2 : dget results ("solving_time") (PyVal.num 0) = PyVal.num q2) :
    get_optimization_summary results =
      [("total_cost", PyVal.num (round2 q1)), ("solving_time", PyVal.num (round2 q2)),
       ("status", dget results ("status") (PyVal.str "Unknown")),
       ("timestamp", dget results ("optimization_timestamp") PyVal.pyNone)] ∧
    (∃ n : Int, round2 q1 = (n : ℚ) / 100) ∧ |q1 - round2 q1| ≤ 1 / 200 ∧
    (∃ n : Int, round2 q2 = (n : ℚ) / 100) ∧ |q2 - round2 q2| ≤ 1 / 200 := by
  refine ⟨?_, (round2_spec q1).1, (round2_spec q1).2, (round2_spec q2).1, (round2_spec q2).2⟩
  unfold get_optimization_summary
  rw [h1, h2]
  rfl

/-- Claim C8 witness: the empty dict gets every default. -/
theorem get_optimization_summary_contract_witness :
    get_optimization_summary [] =
      [("total_cost", PyVal.num 0), ("solving_time", PyVal.num 0),
       ("status", PyVal.str "Unknown"), ("timestamp", PyVal.pyNone)] := by
  have h := (get_optimization_summary_contract [] 0 0 rfl rfl).1
  rw [h]
  norm_num [round2, roundHalfEven, dget]

/-- Claim C10: `get_optimization_summary` never raises: for every input
dict it returns either the 4-field summary or, when rounding fails because
`total_cost` or `solving_time` is not numeric, the empty dict. -/
theorem get_optimization_summary_total (results : PyDict) :
    (get_optimization_summary results = [] ∨
      ∃ tc st2, get_optimization_summary results =
        [("total_cost", PyVal.num tc), ("solving_time", PyVal.num st2),
         ("status", dget results ("status") (PyVal.str "Unknown")),
         ("timestamp", dget results ("optimization_timestamp") PyVal.pyNone)]) ∧
    (((dget results ("total_cost") (PyVal.num 0)).isNum = false ∨
      (dget results ("solving_time") (PyVal.num 0)).isNum = false) →
      get_optimization_summary results = []) := by
  constructor
  · cases hA : pyRound2 (dget results ("total_cost") (PyVal.num 0)) with
    | none =>
      left
      unfold get_optimization_summary
      rw [hA]
    | some x =>
      cases hB : pyRound2 (dget results ("solving_time") (PyVal.num 0)) with
      | none =>
        left
        unfold get_optimization_summary
        rw [hA, hB]
      | some y =>
        right
        obtain ⟨qx, hqx⟩ := pyRound2_some hA
        obtain ⟨qy, hqy⟩ := pyRound2_some hB
        refine ⟨qx, qy, ?_⟩
        unfold get_optimization_summary
        rw [hA, hB, hqx, hqy]
  · intro hfail
    rcases hfail with hf | hf
    · unfold get_optimization_summary
      rw [(pyRound2_eq_none_iff _).mpr hf]
    · cases hA : pyRound2 (dget results ("total_cost") (PyVal.num 0)) with
      | none =>
        unfold get_optimization_summary
        rw [hA]
      | some x =>
        unfold get_optimization_summary
        rw [hA, (pyRound2_eq_none_iff _).mpr hf]

/-- Claim C10 witness: a non-numeric `total_cost` yields the empty dict. -/
theorem get_optimization_summary_total_witness :
    get_optimization_summary [("total_cost", PyVal.str "oops")] = [] :=
  (get_optimization_summary_total [("total_cost", PyVal.str "oops")]).2 (Or.inl rfl)

end LogiTrack
